import Mathlib

/-!
Verification development for the Tool Protocol & Orchestration subsystem of
the cline-UNLEASHED repository.  The definitions below are shallow embeddings
of the TypeScript source: the streaming assistant-message parser
(src/unnamed/part_002, lines 1-109), the agent dispatch loop
(src/unnamed/part_001, lines 158-196), the MCP protocol transport
(src/unnamed/part_002, lines 470-590) and the MCP hub / server registry
(src/unnamed/part_002, lines 192-465).
-/

/-! ## Character classes and tag regexes of the parser

The source tests each line against /<([a-zA-Z_][a-zA-Z0-9_]*)>$/ (an opening
tag anchored at end of line) and /^<\/([a-zA-Z_][a-zA-Z0-9_]*)>$/ (a closing
tag spanning the whole line).  The same two regexes are reused for tool tags
and for parameter tags. -/

def isIdentStart (c : Char) : Bool := c.isAlpha || c == '_'

def isIdentChar (c : Char) : Bool := isIdentStart c || c.isDigit

/-- A nonempty identifier: [a-zA-Z_][a-zA-Z0-9_]* -/
def isIdentName (cs : List Char) : Bool :=
  match cs with
  | [] => false
  | c :: rest => isIdentStart c && rest.all isIdentChar

/-- Result of line.match(/<([a-zA-Z_][a-zA-Z0-9_]*)>$/): the capture group of
the match, when the line ends with an opening tag.  The match, when it
exists, necessarily starts at the last occurrence of a left angle bracket,
since neither the identifier nor the closing angle may contain one. -/
def matchOpenTagEnd (line : String) : Option String :=
  match line.data.reverse with
  | '>' :: rest =>
    let revName := rest.takeWhile isIdentChar
    match rest.drop revName.length with
    | '<' :: _ =>
      let name := revName.reverse
      if isIdentName name then some (String.mk name) else none
    | _ => none
  | _ => none

/-- Result of line.match(/^<\/([a-zA-Z_][a-zA-Z0-9_]*)>$/): the capture group
when the whole line is a closing tag. -/
def matchCloseTagExact (line : String) : Option String :=
  match line.data with
  | '<' :: '/' :: rest =>
    match rest.reverse with
    | '>' :: revName =>
      let name := revName.reverse
      if isIdentName name then some (String.mk name) else none
    | _ => none
  | _ => none

/-! ## Content blocks (interfaces ToolUse and TextBlock, part_002 lines 5-20)

`isOpen` embeds the source's boolean partiality flag on a block ("partial"
in the TypeScript): true while the block may still grow, false once final. -/

inductive Block where
  | text (content : String) (isOpen : Bool)
  | toolUse (name : String) (params : List (String × String)) (isOpen : Bool)
deriving DecidableEq

def blockOpen : Block → Bool
  | .text _ op => op
  | .toolUse _ _ op => op

def isToolUseB : Block → Bool
  | .toolUse _ _ _ => true
  | _ => false

/-! ## JavaScript object semantics for the params record -/

/-- `obj[k] = v`: replace in place when the key exists, else append. -/
def setParam (ps : List (String × String)) (k v : String) : List (String × String) :=
  if (ps.lookup k).isSome then ps.map (fun p => if p.1 = k then (k, v) else p)
  else ps ++ [(k, v)]

/-- Reading `obj[k]` for string concatenation: an absent key reads as the
JavaScript value undefined, which coerces to the string "undefined" under
the += operator used at part_002 line 74. -/
def getParamJs (ps : List (String × String)) (k : String) : String :=
  (ps.lookup k).getD "undefined"

/-- `obj[k] += s` -/
def appendParam (ps : List (String × String)) (k s : String) : List (String × String) :=
  setParam ps k (getParamJs ps k ++ s)

/-! ## The per-line state machine of parseAssistantMessage (part_002 25-95) -/

structure ParseState where
  blocks : List Block
  currentBlock : Option Block
  collecting : Bool
  toolName : String
  toolParams : List (String × String)
  paramName : String

def initParseState : ParseState :=
  { blocks := [], currentBlock := none, collecting := false,
    toolName := "", toolParams := [], paramName := "" }

def currentToList : Option Block → List Block
  | some b => [b]
  | none => []

/-- The condition `closeTagMatch && collecting && closeTagMatch[1] === name`
used (with toolName, then with paramName) at part_002 lines 54 and 69. -/
def isCloseTagFor (line name : String) (collecting : Bool) : Bool :=
  match matchCloseTagExact line with
  | some n => collecting && (n == name)
  | none => false

/-- One iteration of the for loop over lines (part_002 lines 35-87),
with the six branches in source order.  paramStartMatch and paramEndMatch
are the same regexes as toolStartMatch and toolEndMatch in the source. -/
def stepLine (st : ParseState) (line : String) : ParseState :=
  if (matchOpenTagEnd line).isSome && !st.collecting then
    { st with
      blocks := st.blocks ++ currentToList st.currentBlock,
      toolName := (matchOpenTagEnd line).getD "",
      toolParams := [],
      collecting := true,
      currentBlock := none }
  else if isCloseTagFor line st.toolName st.collecting then
    { st with
      blocks := st.blocks ++ [Block.toolUse st.toolName st.toolParams false],
      collecting := false,
      currentBlock := none }
  else if st.collecting && (matchOpenTagEnd line).isSome then
    { st with
      paramName := (matchOpenTagEnd line).getD "",
      toolParams := setParam st.toolParams ((matchOpenTagEnd line).getD "") "" }
  else if isCloseTagFor line st.paramName st.collecting then
    { st with paramName := "" }
  else if st.collecting && !(st.paramName == "") then
    { st with toolParams := appendParam st.toolParams st.paramName (line ++ "\n") }
  else
    match st.currentBlock with
    | some (Block.text c op) =>
      { st with currentBlock := some (Block.text (c ++ "\n" ++ line) op) }
    | _ => { st with currentBlock := some (Block.text line true) }

/-- text.split('\n') in JavaScript: "" splits to [""], a trailing newline
yields a trailing empty piece. -/
def splitOnNl (l : List Char) : List (List Char) :=
  match l with
  | [] => [[]]
  | '\n' :: rest => [] :: splitOnNl rest
  | c :: rest =>
    match splitOnNl rest with
    | h :: t => (c :: h) :: t
    | [] => [[c]]

def splitLines (s : String) : List String :=
  (splitOnNl s.data).map (fun cs => String.mk cs)

/-! ## JavaScript String.prototype.trim (used at part_002 line 102 and 492) -/

def isJsWhitespace (c : Char) : Bool :=
  c == ' ' || c == '\t' || c == '\n' || c == '\r' ||
  c == '\x0b' || c == '\x0c' || c.toNat == 0xa0 || c.toNat == 0xfeff

def dropTrailWs (l : List Char) : List Char :=
  (l.reverse.dropWhile isJsWhitespace).reverse

def trimChars (l : List Char) : List Char :=
  dropTrailWs (l.dropWhile isJsWhitespace)

def jsTrim (s : String) : String := String.mk (trimChars s.data)

/-- Lines 89-95: push the last block, forcing a text block to be final. -/
def finalizeBlocks (st : ParseState) : List Block :=
  match st.currentBlock with
  | some b =>
    st.blocks ++ [match b with
                  | Block.text c _ => Block.text c false
                  | other => other]
  | none => st.blocks

/-- Lines 97-106: trim every string parameter value of every tool block. -/
def cleanupBlock : Block → Block
  | .toolUse n ps op => .toolUse n (ps.map (fun p => (p.1, jsTrim p.2))) op
  | b => b

def parseRawBlocks (text : String) : List Block :=
  finalizeBlocks ((splitLines text).foldl stepLine initParseState)

/-- parseAssistantMessage (part_002 lines 25-109). -/
def parseAssistantMessage (text : String) : List Block :=
  (parseRawBlocks text).map cleanupBlock

/-! ## The streaming dispatch loop (AgentService.processMessage,
part_001 lines 153-196)

Per content_block_delta chunk: append the delta to the accumulated
assistant message, re-parse, and for every newly appeared block beyond the
previously seen count, invoke executeTool on each non-open tool_use block
(awaited sequentially).  `executedTools` records the tool blocks passed to
executeTool, in execution order. -/

def isCompletedToolUse : Block → Bool
  | .toolUse _ _ op => !op
  | _ => false

structure TurnState where
  assistantMessage : String
  lastContentBlocksLength : Nat
  executedTools : List Block

def initTurnState : TurnState :=
  { assistantMessage := "", lastContentBlocksLength := 0, executedTools := [] }

def processStreamChunk (st : TurnState) (deltaText : String) : TurnState :=
  if deltaText == "" then st
  else
    let assistantMessage := st.assistantMessage ++ deltaText
    let contentBlocks := parseAssistantMessage assistantMessage
    if st.lastContentBlocksLength < contentBlocks.length then
      { assistantMessage := assistantMessage,
        lastContentBlocksLength := contentBlocks.length,
        executedTools := st.executedTools ++
          (contentBlocks.drop st.lastContentBlocksLength).filter isCompletedToolUse }
    else
      { st with assistantMessage := assistantMessage }

/-- The tool executions performed during one streamed model turn, for a
given sequence of delta chunks. -/
def processTurn (chunks : List String) : List Block :=
  (chunks.foldl processStreamChunk initTurnState).executedTools

/-! ## JSON values and JSON.stringify (for the request envelope) -/

inductive Json where
  | null
  | bool (b : Bool)
  | num (n : Int)
  | str (s : String)
  | arr (xs : List Json)
  | obj (fields : List (String × Json))

def escapeJsonChar (c : Char) : List Char :=
  if c = '"' then ['\\', '"']
  else if c = '\\' then ['\\', '\\']
  else if c = '\n' then ['\\', 'n']
  else if c = '\t' then ['\\', 't']
  else if c = '\r' then ['\\', 'r']
  else [c]

def jsonQuote (s : String) : String :=
  "\"" ++ String.mk ((s.data.map escapeJsonChar).flatten) ++ "\""

mutual

def stringifyJson : Json → String
  | .null => "null"
  | .bool true => "true"
  | .bool false => "false"
  | .num n => toString n
  | .str s => jsonQuote s
  | .arr xs => "[" ++ stringifyArr xs ++ "]"
  | .obj fs => "\x7b" ++ stringifyFields fs ++ "\x7d"

def stringifyArr : List Json → String
  | [] => ""
  | [x] => stringifyJson x
  | x :: xs => stringifyJson x ++ "," ++ stringifyArr xs

def stringifyFields : List (String × Json) → String
  | [] => ""
  | [(k, v)] => jsonQuote k ++ ":" ++ stringifyJson v
  | (k, v) :: fs => jsonQuote k ++ ":" ++ stringifyJson v ++ "," ++ stringifyFields fs

end

/-! ## The request envelope of McpProtocol.sendRequest (part_002 538-568)

The source builds `{ jsonrpc: '2.0', id, method, params }` and writes
`JSON.stringify(request) + '\n'` to the subprocess's stdin. -/

def mkRequest (id method : String) (params : Json) : List (String × Json) :=
  [("jsonrpc", Json.str "2.0"), ("id", Json.str id),
   ("method", Json.str method), ("params", params)]

/-- The exact line written to the subprocess's input stream for one request. -/
def sentLine (id method : String) (params : Json) : String :=
  stringifyJson (Json.obj (mkRequest id method params)) ++ "\n"

/-! ## Inbound stdout handling (McpProtocol.setupCommunication, part_002
490-519)

Each data chunk is handled independently: `data.toString().trim()` is split
on newlines, empty pieces are skipped, and each remaining line is given to
JSON.parse inside a try block that wraps the whole for loop — so the first
line that fails to parse aborts the remainder of that chunk.  There is no
buffer carrying a trailing piece of one chunk into the next.  JSON.parse is
an external builtin; `processLines` is parameterized by the parse function
and `jsonParseModel` below models the builtin on the flat messages used in
the examples. -/

def splitChunkLines (data : String) : List String :=
  splitLines (jsTrim data)

def processLines (parse : String → Option Json) : List String → List Json
  | [] => []
  | l :: ls =>
    if l == "" then processLines parse ls
    else
      match parse l with
      | some m => m :: processLines parse ls
      | none => []

/-- The messages successfully parsed out of one stdout data chunk. -/
def processData (parse : String → Option Json) (data : String) : List Json :=
  processLines parse (splitChunkLines data)

/-- The messages parsed across a whole sequence of stdout data chunks; the
handler keeps no state between chunks. -/
def processStream (parse : String → Option Json) (chunks : List String) : List Json :=
  (chunks.map (processData parse)).flatten

/-! ## A model of the JSON.parse builtin

JSON.parse is part of the JavaScript runtime, not of this repository.  The
model below is faithful on the flat, newline-free messages this protocol
exchanges: a single object whose values are primitives (double-quoted
strings with the common backslash escapes, integers, true/false/null), or a
bare primitive, with arbitrary surrounding whitespace.  Nested objects,
arrays, fractional numbers and unicode escapes are outside the model; every
input outside the modelled subset parses to none, as does every input that
JSON.parse itself would reject. -/

def lbraceChar : Char := Char.ofNat 123

def rbraceChar : Char := Char.ofNat 125

def jsonWsChar (c : Char) : Bool :=
  c == ' ' || c == '\t' || c == '\n' || c == '\r'

def skipJsonWs : List Char → List Char
  | [] => []
  | c :: cs => if jsonWsChar c then skipJsonWs cs else c :: cs

def parseStringBody : List Char → Option (List Char × List Char)
  | [] => none
  | '"' :: rest => some ([], rest)
  | '\\' :: c :: rest =>
    let dec : Option Char :=
      match c with
      | '"' => some '"'
      | '\\' => some '\\'
      | '/' => some '/'
      | 'n' => some '\n'
      | 't' => some '\t'
      | 'r' => some '\r'
      | 'b' => some (Char.ofNat 8)
      | 'f' => some (Char.ofNat 12)
      | _ => none
    match dec, parseStringBody rest with
    | some d, some (content, r) => some (d :: content, r)
    | _, _ => none
  | c :: rest =>
    match parseStringBody rest with
    | some (content, r) => some (c :: content, r)
    | none => none

def parseDigits : List Char → (List Char × List Char)
  | [] => ([], [])
  | c :: cs =>
    if c.isDigit then
      match parseDigits cs with
      | (ds, r) => (c :: ds, r)
    else ([], c :: cs)

def digitsToNat (ds : List Char) : Nat :=
  ds.foldl (fun n c => 10 * n + (c.toNat - 48)) 0

def parsePrim (cs : List Char) : Option (Json × List Char) :=
  match skipJsonWs cs with
  | '"' :: rest => (parseStringBody rest).map (fun pr => (Json.str (String.mk pr.1), pr.2))
  | 't' :: 'r' :: 'u' :: 'e' :: r => some (Json.bool true, r)
  | 'f' :: 'a' :: 'l' :: 's' :: 'e' :: r => some (Json.bool false, r)
  | 'n' :: 'u' :: 'l' :: 'l' :: r => some (Json.null, r)
  | '-' :: rest =>
    (match parseDigits rest with
     | ([], _) => none
     | (ds, r) => some (Json.num (-(digitsToNat ds : Int)), r))
  | c :: rest =>
    if c.isDigit then
      match parseDigits (c :: rest) with
      | (ds, r) => some (Json.num (digitsToNat ds), r)
    else none
  | [] => none

def parseObjFields : Nat → List Char → List (String × Json) →
    Option (Json × List Char)
  | 0, _, _ => none
  | fuel + 1, cs, acc =>
    match skipJsonWs cs with
    | '"' :: rest =>
      match parseStringBody rest with
      | none => none
      | some (key, r1) =>
        match skipJsonWs r1 with
        | ':' :: r2 =>
          match parsePrim r2 with
          | none => none
          | some (v, r3) =>
            match skipJsonWs r3 with
            | ',' :: r4 => parseObjFields fuel r4 (acc ++ [(String.mk key, v)])
            | c :: r4 =>
              if c = rbraceChar then some (Json.obj (acc ++ [(String.mk key, v)]), r4)
              else none
            | [] => none
        | _ => none
    | _ => none

def jsonParseModel (s : String) : Option Json :=
  let cs := skipJsonWs s.data
  let res :=
    match cs with
    | c :: rest =>
      if c = lbraceChar then
        match skipJsonWs rest with
        | c2 :: r2 =>
          if c2 = rbraceChar then some (Json.obj [], r2)
          else parseObjFields (rest.length + 1) rest []
        | [] => none
      else parsePrim cs
    | [] => none
  match res with
  | some (v, rest) => if (skipJsonWs rest).isEmpty then some v else none
  | none => none

/-! ## Response correlation (McpProtocol.setupCommunication, part_002
497-514, and the pending-request map, 472-476)

A pending request is keyed by its correlation id and carries its timeout
timer (modelled by a numeric timer handle).  A parsed inbound message is a
JSON-RPC-style envelope with optional id, result and error fields. -/

def jsTruthy : Json → Bool
  | .null => false
  | .bool b => b
  | .num n => n != 0
  | .str s => s != ""
  | .arr _ => true
  | .obj _ => true

def jsToString : Json → String
  | .null => "null"
  | .bool true => "true"
  | .bool false => "false"
  | .num n => toString n
  | .str s => s
  | .arr _ => "[array]"
  | .obj _ => "[object Object]"

structure RespMsg where
  id : Option String
  result : Option Json
  error : Option Json

/-- Truthiness of parsedMessage.error. -/
def errTruthy : Option Json → Bool
  | none => false
  | some j => jsTruthy j

/-- parsedMessage.error.message || 'Unknown error' -/
def errMessageOf : Option Json → String
  | some (.obj fs) =>
    match fs.lookup "message" with
    | some v => if jsTruthy v then jsToString v else "Unknown error"
    | _ => "Unknown error"
  | _ => "Unknown error"

inductive MsgOutcome where
  | settled (id : String) (cancelledTimer : Nat) (outcome : Except String (Option Json))
  | unsolicited (msg : RespMsg)

/-- Handling of one parsed message (part_002 lines 499-514): a truthy id
matching a pending request cancels that request's timer, settles it
(rejected from the error field when truthy, else resolved with the result
field) and deletes it from the pending map; anything else is emitted as an
unsolicited message event. -/
def handleParsedMessage (msg : RespMsg) (pending : List (String × Nat)) :
    List (String × Nat) × MsgOutcome :=
  match msg.id with
  | some i =>
    if i == "" then (pending, .unsolicited msg)
    else
      match pending.lookup i with
      | some t =>
        (pending.eraseP (fun q => q.1 == i),
         .settled i t
           (if errTruthy msg.error then Except.error (errMessageOf msg.error)
            else Except.ok msg.result))
      | none => (pending, .unsolicited msg)
  | none => (pending, .unsolicited msg)

def handleAll (msgs : List RespMsg) (pending : List (String × Nat)) :
    List (String × Nat) × List MsgOutcome :=
  match msgs with
  | [] => (pending, [])
  | m :: rest =>
    let step := handleParsedMessage m pending
    let next := handleAll rest step.1
    (next.1, step.2 :: next.2)

/-! ## Process-exit handling (part_002 lines 525-535) -/

inductive TransportEvent where
  | rejectedPending (id : String) (cancelledTimer : Nat) (message : String)
  | exitEmitted (code : Option Int)

/-- `${code}` for the number-or-null exit code. -/
def codeText : Option Int → String
  | none => "null"
  | some n => toString n

def exitMessage (code : Option Int) : String :=
  "MCP server process exited with code " ++ codeText code

/-- The for loop over pendingRequests.entries(): clear each timer, reject
the request with the exit-coded error, delete its map entry. -/
def exitRejectLoop (msg : String) (entries pending : List (String × Nat)) :
    List (String × Nat) × List TransportEvent :=
  match entries with
  | [] => (pending, [])
  | p :: rest =>
    let next := exitRejectLoop msg rest (pending.eraseP (fun q => q.1 == p.1))
    (next.1, TransportEvent.rejectedPending p.1 p.2 msg :: next.2)

/-- The process 'exit' listener: reject every pending request, then emit one
exit event. -/
def handleExit (code : Option Int) (pending : List (String × Nat)) :
    List (String × Nat) × List TransportEvent :=
  let looped := exitRejectLoop (exitMessage code) pending pending
  (looped.1, looped.2 ++ [TransportEvent.exitEmitted code])

def isExitEvent : TransportEvent → Bool
  | .exitEmitted _ => true
  | _ => false

/-! ## The MCP hub / server registry (McpHub, part_002 192-465)

A server entry holds the connection status, the discovered capability
lists, and whether the process and protocol handles are non-null.  (The
launch config is irrelevant to the properties below and is omitted from the
entry.) -/

inductive McpStatus where
  | connected
  | connecting
  | disconnected
deriving DecidableEq

structure McpToolDesc where
  name : String
  description : Option String
deriving DecidableEq

structure McpResource where
  uri : String
  name : String
deriving DecidableEq

structure McpResourceTemplate where
  uriTemplate : String
  name : String
deriving DecidableEq

structure ServerEntry where
  hasProcess : Bool
  hasProtocol : Bool
  tools : List McpToolDesc
  resources : List McpResource
  resourceTemplates : List McpResourceTemplate
  status : McpStatus
  error : Option String
deriving DecidableEq

structure McpHubState where
  servers : List (String × ServerEntry)
deriving DecidableEq

/-- McpHub.executeTool (part_002 lines 341-359).  The second component is
the outcome: a thrown Error's message, or delegation of (toolName, args)
to the connection's protocol.callTool.  The hub state is returned so the
theorems can state that it is never modified. -/
def executeTool (hub : McpHubState) (serverName toolName : String) (args : Json) :
    McpHubState × Except String (String × Json) :=
  match hub.servers.lookup serverName with
  | none => (hub, Except.error ("MCP server " ++ serverName ++ " not found"))
  | some entry =>
    if entry.status ≠ McpStatus.connected ∨ entry.hasProtocol = false then
      (hub, Except.error ("MCP server " ++ serverName ++ " is not connected"))
    else
      match entry.tools.find? (fun t => t.name == toolName) with
      | none =>
        (hub, Except.error ("Tool " ++ toolName ++ " not found in MCP server " ++ serverName))
      | some _ => (hub, Except.ok (toolName, args))

/-- McpHub.accessResource (part_002 lines 364-376): same unknown-server and
not-connected checks, then delegation of the uri to protocol.readResource
with no check against the discovered resource list. -/
def accessResource (hub : McpHubState) (serverName uri : String) :
    McpHubState × Except String String :=
  match hub.servers.lookup serverName with
  | none => (hub, Except.error ("MCP server " ++ serverName ++ " not found"))
  | some entry =>
    if entry.status ≠ McpStatus.connected ∨ entry.hasProtocol = false then
      (hub, Except.error ("MCP server " ++ serverName ++ " is not connected"))
    else (hub, Except.ok uri)

/-! ## Post-spawn capability discovery (McpHub.startServer, part_002
267-292)

The three discovery calls run sequentially inside one try block.  Each
argument below is the outcome the corresponding call would have: a rejection
message, or the payload list (an absent/falsy payload field is defaulted to
[] by the `|| []` in the source).  The Bool result records whether
closeServerProcess was invoked on the spawned subprocess. -/

inductive HubEvent where
  | serverConnecting (name : String)
  | serverConnected (name : String)
  | serverError (name : String) (message : String)
  | serverDisconnected (name : String)
deriving DecidableEq

def fetchCapabilities (name : String) (entry : ServerEntry)
    (toolsR : Except String (Option (List McpToolDesc)))
    (resourcesR : Except String (Option (List McpResource)))
    (templatesR : Except String (Option (List McpResourceTemplate))) :
    ServerEntry × List HubEvent × Bool :=
  match toolsR with
  | .error e =>
    ({ entry with status := .disconnected, error := some e },
     [HubEvent.serverError name e], true)
  | .ok ts =>
    let entry1 := { entry with tools := ts.getD [] }
    match resourcesR with
    | .error e =>
      ({ entry1 with status := .disconnected, error := some e },
       [HubEvent.serverError name e], true)
    | .ok rs =>
      let entry2 := { entry1 with resources := rs.getD [] }
      match templatesR with
      | .error e =>
        ({ entry2 with status := .disconnected, error := some e },
         [HubEvent.serverError name e], true)
      | .ok tmpl =>
        ({ entry2 with resourceTemplates := tmpl.getD [], status := .connected },
         [HubEvent.serverConnected name], false)

/-- The first discovery call to fail, in the order the source issues them. -/
def firstDiscoveryError
    (toolsR : Except String (Option (List McpToolDesc)))
    (resourcesR : Except String (Option (List McpResource)))
    (templatesR : Except String (Option (List McpResourceTemplate))) :
    Option String :=
  match toolsR with
  | .error e => some e
  | .ok _ =>
    match resourcesR with
    | .error e => some e
    | .ok _ =>
      match templatesR with
      | .error e => some e
      | .ok _ => none

/-- Invariant of the line loop: every tool block already pushed is closed,
and the current in-progress block is never a tool block. -/
def StInv (st : ParseState) : Prop :=
  (∀ b ∈ st.blocks, isToolUseB b = true → blockOpen b = false) ∧
  (∀ b, st.currentBlock = some b → isToolUseB b = false)

/-- The property asserted by claim C1 for a block sequence: a block marked
still-open may only sit at the last position. -/
def OpenOnlyLast (bs : List Block) : Prop :=
  ∀ i, i < bs.length →
    blockOpen (bs.getD i (Block.text "" false)) = true → i = bs.length - 1

/-- The property claim C3 asserts of a streamed turn: only the first
completed tool-invocation block of the turn is executed. -/
def FirstToolOnly (chunks : List String) : Prop :=
  processTurn chunks =
    ((parseAssistantMessage (String.join chunks)).filter isCompletedToolUse).take 1

/-! ## Lemmas about dropWhile and JavaScript trim -/

theorem dropWhile_head_not (p : Char → Bool) (l : List Char) :
    ∀ c, (l.dropWhile p).head? = some c → p c = false := by
  induction l with
  | nil => intro c h; simp [List.dropWhile] at h
  | cons a as ih =>
    intro c h
    rw [List.dropWhile_cons] at h
    by_cases hp : p a = true
    · rw [if_pos hp] at h; exact ih c h
    · rw [if_neg hp] at h
      simp at h
      rw [← h]
      exact Bool.not_eq_true _ ▸ hp

theorem dropWhile_suffix (p : Char → Bool) (l : List Char) :
    ∃ t, t ++ l.dropWhile p = l := by
  induction l with
  | nil => exact ⟨[], rfl⟩
  | cons a as ih =>
    by_cases hp : p a = true
    · obtain ⟨t, ht⟩ := ih
      exact ⟨a :: t, by rw [List.dropWhile_cons, if_pos hp, List.cons_append, ht]⟩
    · exact ⟨[], by rw [List.dropWhile_cons, if_neg hp, List.nil_append]⟩

theorem trim_head_not (l : List Char) :
    ∀ c, (trimChars l).head? = some c → isJsWhitespace c = false := by
  intro c h
  unfold trimChars dropTrailWs at h
  obtain ⟨t, ht⟩ := dropWhile_suffix isJsWhitespace (l.dropWhile isJsWhitespace).reverse
  have hm : ((l.dropWhile isJsWhitespace).reverse.dropWhile isJsWhitespace).reverse
      ++ t.reverse = l.dropWhile isJsWhitespace := by
    have h2 := congrArg List.reverse ht
    simpa [List.reverse_append] using h2
  cases hkr : ((l.dropWhile isJsWhitespace).reverse.dropWhile isJsWhitespace).reverse with
  | nil => rw [hkr] at h; simp at h
  | cons x xs =>
    rw [hkr] at h
    simp at h
    have hx : (l.dropWhile isJsWhitespace).head? = some x := by
      rw [← hm, hkr]; simp
    rw [← h]
    exact dropWhile_head_not isJsWhitespace l x hx

theorem trim_getLast_not (l : List Char) :
    ∀ c, (trimChars l).getLast? = some c → isJsWhitespace c = false := by
  intro c h
  unfold trimChars dropTrailWs at h
  rw [List.getLast?_reverse] at h
  exact dropWhile_head_not isJsWhitespace _ c h

theorem dropWhile_eq_self_of_head (p : Char → Bool) (l : List Char)
    (h : ∀ c, l.head? = some c → p c = false) : l.dropWhile p = l := by
  cases l with
  | nil => rfl
  | cons a as =>
    have ha := h a (by simp)
    rw [List.dropWhile_cons, ha]
    simp

theorem trimChars_idem (l : List Char) : trimChars (trimChars l) = trimChars l := by
  have h1 : (trimChars l).dropWhile isJsWhitespace = trimChars l :=
    dropWhile_eq_self_of_head _ _ (trim_head_not l)
  have h2 : (trimChars l).reverse.dropWhile isJsWhitespace = (trimChars l).reverse := by
    apply dropWhile_eq_self_of_head
    intro c hc
    rw [List.head?_reverse] at hc
    exact trim_getLast_not l c hc
  show dropTrailWs ((trimChars l).dropWhile isJsWhitespace) = trimChars l
  rw [h1]
  unfold dropTrailWs
  rw [h2, List.reverse_reverse]

theorem jsTrim_idem (s : String) : jsTrim (jsTrim s) = jsTrim s :=
  congrArg String.mk (trimChars_idem s.data)

/-! ## The parser never emits an open tool block -/

theorem stepLine_inv (st : ParseState) (line : String) (h : StInv st) :
    StInv (stepLine st line) := by
  obtain ⟨h1, h2⟩ := h
  unfold stepLine
  by_cases hb1 : ((matchOpenTagEnd line).isSome && !st.collecting) = true
  · rw [if_pos hb1]
    constructor
    · intro b hb ht
      rcases List.mem_append.mp hb with hb | hb
      · exact h1 b hb ht
      · cases hcb : st.currentBlock with
        | none => rw [hcb] at hb; simp [currentToList] at hb
        | some b0 =>
          rw [hcb] at hb
          simp [currentToList] at hb
          have hx := h2 b0 hcb
          subst hb
          simp [hx] at ht
    · intro b hb; simp at hb
  · rw [if_neg hb1]
    by_cases hb2 : isCloseTagFor line st.toolName st.collecting = true
    · rw [if_pos hb2]
      constructor
      · intro b hb ht
        rcases List.mem_append.mp hb with hb | hb
        · exact h1 b hb ht
        · simp at hb; subst hb; rfl
      · intro b hb; simp at hb
    · rw [if_neg hb2]
      by_cases hb3 : (st.collecting && (matchOpenTagEnd line).isSome) = true
      · rw [if_pos hb3]; exact ⟨h1, h2⟩
      · rw [if_neg hb3]
        by_cases hb4 : isCloseTagFor line st.paramName st.collecting = true
        · rw [if_pos hb4]; exact ⟨h1, h2⟩
        · rw [if_neg hb4]
          by_cases hb5 : (st.collecting && !(st.paramName == "")) = true
          · rw [if_pos hb5]; exact ⟨h1, h2⟩
          · rw [if_neg hb5]
            cases hcb : st.currentBlock with
            | none =>
              exact ⟨h1, by intro b hb; simp at hb; rw [← hb]; rfl⟩
            | some b0 =>
              cases b0 with
              | text c op =>
                exact ⟨h1, by intro b hb; simp at hb; rw [← hb]; rfl⟩
              | toolUse n ps op =>
                exact ⟨h1, by intro b hb; simp at hb; rw [← hb]; rfl⟩

theorem foldl_stepLine_inv (lines : List String) (st : ParseState) (h : StInv st) :
    StInv (lines.foldl stepLine st) := by
  induction lines generalizing st with
  | nil => exact h
  | cons l ls ih => exact ih _ (stepLine_inv st l h)

theorem parseRaw_toolClosed (text : String) :
    ∀ b ∈ parseRawBlocks text, isToolUseB b = true → blockOpen b = false := by
  intro b hb ht
  have hinv := foldl_stepLine_inv (splitLines text) initParseState
    ⟨by intro b hb; simp [initParseState] at hb, by intro b hb; simp [initParseState] at hb⟩
  obtain ⟨h1, h2⟩ := hinv
  unfold parseRawBlocks finalizeBlocks at hb
  cases hcb : ((splitLines text).foldl stepLine initParseState).currentBlock with
  | none => rw [hcb] at hb; exact h1 b hb ht
  | some b0 =>
    rw [hcb] at hb
    rcases List.mem_append.mp hb with hb | hb
    · exact h1 b hb ht
    · simp at hb
      cases b0 with
      | text c op => subst hb; rfl
      | toolUse n ps op =>
        have hx := h2 _ hcb
        simp [isToolUseB] at hx

/-! ## Claims about the parser and the dispatch loop -/

/-- Claim C1, as stated, is false: on "hello\n<t>\n</t>" the parser returns
the text block "hello" still marked open at position 0, followed by the
closed tool block, so an earlier block is marked open. -/
theorem c1_counterexample :
    ¬ OpenOnlyLast (parseAssistantMessage "hello\n<t>\n</t>") := by
  unfold OpenOnlyLast
  decide

/-- Claim C1 (amended): every tool-invocation block the parser returns is
non-open (an unterminated tool yields no block at all), but a text block
that is pushed because a tool invocation starts keeps its open flag, so an
earlier block of the sequence may remain marked open, as on
"hello\n<t>\n</t>". -/
theorem c1_amended :
    (∀ text b, b ∈ parseAssistantMessage text → isToolUseB b = true →
      blockOpen b = false) ∧
    parseAssistantMessage "hello\n<t>\n</t>" =
      [Block.text "hello" true, Block.toolUse "t" [] false] := by
  constructor
  · intro text b hb ht
    unfold parseAssistantMessage at hb
    obtain ⟨b0, hb0, hm⟩ := List.mem_map.mp hb
    cases b0 with
    | text c op =>
      rw [← hm] at ht
      simp [cleanupBlock, isToolUseB] at ht
    | toolUse n ps op =>
      have hc := parseRaw_toolClosed text _ hb0 (by rfl)
      rw [← hm]
      simpa [cleanupBlock, blockOpen] using hc
  · decide

theorem c1_witness :
    isToolUseB (Block.toolUse "t" [] false) = true ∧
    blockOpen (Block.toolUse "t" [] false) = false :=
  ⟨rfl, c1_amended.1 "hello\n<t>\n</t>" _ (by decide) rfl⟩

/-- Claim C2, as stated, is false: on "<tool>\n<p>value</p>\n</tool>" the
parameter line never matches the parameter-open regex (which requires the
opening tag at end of line), so the returned tool block has no parameter p
at all. -/
theorem c2_counterexample :
    ¬ ∃ ps op, parseAssistantMessage "<tool>\n<p>value</p>\n</tool>" =
      [Block.toolUse "tool" ps op] ∧ ps.lookup "p" = some "value" := by
  intro ⟨ps, op, heq, hlk⟩
  have hval : parseAssistantMessage "<tool>\n<p>value</p>\n</tool>" =
      [Block.toolUse "tool" [] false] := by decide
  rw [hval] at heq
  simp only [List.cons.injEq, Block.toolUse.injEq] at heq
  obtain ⟨⟨-, hps, -⟩, -⟩ := heq
  rw [← hps] at hlk
  simp [List.lookup] at hlk

/-- Claim C2 (amended): on the full input the parser returns exactly one
closed tool block named "tool" with an empty parameter map (the single-line
"<p>value</p>" is treated as tool-body text and discarded when the tool
closes); on the input without the final "</tool>" it returns exactly one
closed text block holding "<p>value</p>", not a tool block. -/
theorem c2_amended :
    parseAssistantMessage "<tool>\n<p>value</p>\n</tool>" =
      [Block.toolUse "tool" [] false] ∧
    parseAssistantMessage "<tool>\n<p>value</p>" =
      [Block.text "<p>value</p>" false] := by
  constructor
  · decide
  · decide

/-- Claim C10: every string parameter value of every tool-invocation block
returned by parseAssistantMessage is its own JavaScript trim — the cleanup
pass applies String.prototype.trim, which strips all leading and trailing
whitespace — so no externally visible value begins or ends with a
whitespace character. -/
theorem c10_params_trimmed :
    ∀ text n ps op k v, Block.toolUse n ps op ∈ parseAssistantMessage text →
      (k, v) ∈ ps →
      jsTrim v = v ∧
      (∀ c, v.data.head? = some c → isJsWhitespace c = false) ∧
      (∀ c, v.data.getLast? = some c → isJsWhitespace c = false) := by
  intro text n ps op k v hb hkv
  unfold parseAssistantMessage at hb
  obtain ⟨b0, hb0, hm⟩ := List.mem_map.mp hb
  cases b0 with
  | text c op2 => simp [cleanupBlock] at hm
  | toolUse n0 ps0 op0 =>
    simp only [cleanupBlock, Block.toolUse.injEq] at hm
    obtain ⟨-, hps, -⟩ := hm
    rw [← hps] at hkv
    obtain ⟨⟨k0, v0⟩, hv0, hpair⟩ := List.mem_map.mp hkv
    have hv : v = jsTrim v0 := (Prod.mk.injEq _ _ _ _ ▸ hpair).2.symm
    subst hv
    refine ⟨jsTrim_idem v0, ?_, ?_⟩
    · intro c hc
      exact trim_head_not v0.data c hc
    · intro c hc
      exact trim_getLast_not v0.data c hc

theorem c10_witness :
    jsTrim "x" = "x" :=
  (c10_params_trimmed "<t>\n<p>\nx\n</p>\n</t>" "t" [("p", "x")] false "p" "x"
    (by decide) (by decide)).1

/-- Claim C3, as stated, is false: in a turn that streams
"<a>\n</a>\n<b>\n</b>" both completed tool blocks are passed to
executeTool, not only the first. -/
theorem c3_counterexample :
    ¬ FirstToolOnly ["<a>\n</a>\n<b>\n</b>"] ∧
    processTurn ["<a>\n</a>\n<b>\n</b>"] =
      [Block.toolUse "a" [] false, Block.toolUse "b" [] false] := by
  constructor
  · unfold FirstToolOnly
    decide
  · decide

/-- Claim C3 (amended): the dispatch loop executes every completed
tool-invocation block among the newly appeared blocks, in order, awaiting
each — not only the first.  For a turn that arrives as one chunk the
executed list is exactly the completed tool blocks of the parse. -/
theorem c3_amended (delta : String) :
    processTurn [delta] =
      (parseAssistantMessage delta).filter isCompletedToolUse := by
  unfold processTurn
  simp only [List.foldl]
  unfold processStreamChunk
  by_cases hd : (delta == "") = true
  · rw [if_pos hd]
    have hde : delta = "" := by simpa using hd
    subst hde
    simp [initTurnState]
    decide
  · rw [if_neg hd]
    simp only [initTurnState]
    by_cases hl : 0 < (parseAssistantMessage ("" ++ delta)).length
    · rw [if_pos hl]
      simp
    · rw [if_neg hl]
      have h0 : (parseAssistantMessage ("" ++ delta)).length = 0 := by omega
      rw [List.length_eq_zero] at h0
      have he : ("" : String) ++ delta = delta := rfl
      rw [he] at h0
      rw [h0]
      simp

/-- Claim C4, as stated, is false: the envelope written by sendRequest has
no protocolVersion field — its version field is named jsonrpc. -/
theorem c4_counterexample :
    (mkRequest "r1" "listTools" (Json.obj [])).map Prod.fst ≠
      ["protocolVersion", "id", "method", "params"] ∧
    ((mkRequest "r1" "listTools" (Json.obj [])).map Prod.fst).contains
      "protocolVersion" = false := by
  constructor
  · decide
  · decide

/-- Claim C4 (amended): for every request, the line written to the
subprocess's input stream is the JSON serialization of the envelope
followed by exactly one newline, and the envelope's fields are exactly
jsonrpc (equal to "2.0"), id, method and params, in that order. -/
theorem c4_amended (id method : String) (params : Json) :
    sentLine id method params =
      stringifyJson (Json.obj (mkRequest id method params)) ++ "\n" ∧
    (mkRequest id method params).map Prod.fst =
      ["jsonrpc", "id", "method", "params"] ∧
    (mkRequest id method params).lookup "jsonrpc" = some (Json.str "2.0") := by
  refine ⟨rfl, rfl, rfl⟩

/-- Claim C5, as stated, is false on two counts.  First: a line that fails
to parse aborts the rest of its chunk, because the try block wraps the
whole for loop — in the chunk "bad\n{"id":"x"}\n" the second line is valid
JSON yet is never processed.  Second: a partial line is not buffered until
its newline arrives — streaming the same message split across two chunks
yields nothing, because each fragment is parsed (and fails) on its own. -/
theorem c5_counterexample :
    (processStream jsonParseModel ["bad\n\x7b\"id\":\"x\"\x7d\n"]).isEmpty = true ∧
    (jsonParseModel "\x7b\"id\":\"x\"\x7d").isSome = true ∧
    (processStream jsonParseModel ["\x7b\"id\":\"x\"", "\x7d\n"]).isEmpty = true := by
  refine ⟨?_, ?_, ?_⟩
  · decide
  · decide
  · decide

/-- Claim C5 (amended): each stdout chunk is handled independently — its
trimmed text is split on newlines, empty pieces are skipped, and the lines
are parsed in order; when every line parses, all of them are processed, but
the first line that fails to parse drops the remainder of that chunk.  No
state is carried between chunks, so a trailing partial line is lost rather
than buffered. -/
theorem c5_amended :
    (∀ parse (c : String) (cs : List String),
      processStream parse (c :: cs) =
        processData parse c ++ processStream parse cs) ∧
    (∀ parse (ls : List String), (∀ l ∈ ls, l = "" ∨ (parse l).isSome) →
      processLines parse ls =
        ls.filterMap (fun l => if l = "" then none else parse l)) ∧
    (∀ parse (ls1 ls2 : List String) (bad : String),
      (∀ l ∈ ls1, l = "" ∨ (parse l).isSome) → bad ≠ "" → parse bad = none →
      processLines parse (ls1 ++ bad :: ls2) =
        ls1.filterMap (fun l => if l = "" then none else parse l)) := by
  refine ⟨?_, ?_, ?_⟩
  · intro parse c cs
    simp [processStream]
  · intro parse ls h
    induction ls with
    | nil => rfl
    | cons l ls ih =>
      have hl := h l (by simp)
      have hrest : ∀ x ∈ ls, x = "" ∨ (parse x).isSome := by
        intro x hx; exact h x (by simp [hx])
      simp only [processLines, List.filterMap_cons]
      rcases hl with hl | hl
      · subst hl
        simp [ih hrest]
      · by_cases hle : (l == "") = true
        · rw [if_pos hle]
          have hx : l = "" := by simpa using hle
          subst hx
          simp [ih hrest]
        · rw [if_neg hle]
          have hne : ¬ l = "" := by simpa using hle
          obtain ⟨m, hm⟩ := Option.isSome_iff_exists.mp hl
          rw [hm]
          simp only [if_neg hne, hm]
          rw [ih hrest]
  · intro parse ls1 ls2 bad h hbad hnone
    induction ls1 with
    | nil =>
      simp only [List.nil_append, List.filterMap_nil, processLines]
      have hbe : (bad == "") = false := by simpa using hbad
      rw [hbe]
      simp [hnone]
    | cons l ls ih =>
      have hl := h l (by simp)
      have hrest : ∀ x ∈ ls, x = "" ∨ (parse x).isSome := by
        intro x hx; exact h x (by simp [hx])
      rw [List.cons_append]
      simp only [processLines, List.filterMap_cons]
      rcases hl with hl | hl
      · subst hl
        simp [ih hrest]
      · by_cases hle : (l == "") = true
        · rw [if_pos hle]
          have hx : l = "" := by simpa using hle
          subst hx
          simp [ih hrest]
        · rw [if_neg hle]
          have hne : ¬ l = "" := by simpa using hle
          obtain ⟨m, hm⟩ := Option.isSome_iff_exists.mp hl
          rw [hm]
          simp only [if_neg hne, hm]
          rw [ih hrest]

theorem c5_witness :
    processLines jsonParseModel ["\x7b\x7d", "oops", "\x7b\"a\":1\x7d"] =
      [Json.obj []] := by
  have h := c5_amended.2.2 jsonParseModel ["\x7b\x7d"] ["\x7b\"a\":1\x7d"] "oops"
    (by intro l hl; simp at hl; subst hl; right; decide)
    (by decide)
    (by rfl)
  rw [show (["\x7b\x7d"] ++ "oops" :: ["\x7b\"a\":1\x7d"] : List String) =
    ["\x7b\x7d", "oops", "\x7b\"a\":1\x7d"] from rfl] at h
  rw [h]
  rfl

/-! ## Lemmas about the pending-request map -/

theorem filter_ne_of_not_mem (rest : List (String × Nat)) (i : String)
    (h : ∀ q ∈ rest, q.1 ≠ i) : rest.filter (fun q => q.1 != i) = rest := by
  induction rest with
  | nil => rfl
  | cons p t ih =>
    have hp := h p (by simp)
    have hb : (p.1 != i) = true := by simpa [bne] using hp
    rw [List.filter_cons, if_pos hb, ih (fun q hq => h q (by simp [hq]))]

theorem erase_eq_filter (l : List (String × Nat)) (i : String)
    (hnd : (l.map Prod.fst).Nodup) :
    l.eraseP (fun q => q.1 == i) = l.filter (fun q => q.1 != i) := by
  induction l with
  | nil => rfl
  | cons p rest ih =>
    simp only [List.map_cons, List.nodup_cons] at hnd
    obtain ⟨hk, hrest⟩ := hnd
    by_cases hik : (p.1 == i) = true
    · have hki : p.1 = i := by simpa using hik
      have he : (p :: rest).eraseP (fun q => q.1 == i) = rest := by
        simp [List.eraseP_cons, hik]
      have hf : ∀ q ∈ rest, q.1 ≠ i := by
        intro q hq hc
        exact hk (by rw [hki, ← hc]; exact List.mem_map_of_mem Prod.fst hq)
      rw [he, List.filter_cons, if_neg (by simp [bne, hki]),
        filter_ne_of_not_mem rest i hf]
    · have hif : (p.1 == i) = false := by simpa using hik
      have he : (p :: rest).eraseP (fun q => q.1 == i) =
          p :: rest.eraseP (fun q => q.1 == i) := by
        simp [List.eraseP_cons, hif]
      rw [he, List.filter_cons, if_pos (by simp [bne, hif]), ih hrest]

/-- Claim C6: a parsed inbound message bearing the id of a pending request
settles exactly that request — cancelling its timer, resolving it with the
result field or rejecting it from the error field — and removes exactly
that entry from the pending map, independent of issue order; a message
whose id matches no pending request (or that has no truthy id) is emitted
as an unsolicited message, leaving the pending map unchanged.  The last
conjunct is the out-of-order delivery scenario: with requests a then b
pending, responding to b first and then to a settles each with its own
result. -/
theorem c6_correlation :
    (∀ (pending : List (String × Nat)) (msg : RespMsg) i t,
      (pending.map Prod.fst).Nodup → msg.id = some i → ¬ i = "" →
      pending.lookup i = some t →
      handleParsedMessage msg pending =
        (pending.filter (fun q => q.1 != i),
         MsgOutcome.settled i t
           (if errTruthy msg.error then Except.error (errMessageOf msg.error)
            else Except.ok msg.result))) ∧
    (∀ (pending : List (String × Nat)) (msg : RespMsg),
      (msg.id = none ∨ ∃ i, msg.id = some i ∧
        (i = "" ∨ pending.lookup i = none)) →
      handleParsedMessage msg pending = (pending, MsgOutcome.unsolicited msg)) ∧
    (∀ (a b : String) (ta tb : Nat) (ra rb : Json),
      ¬ a = "" → ¬ b = "" → ¬ a = b →
      handleAll [⟨some b, some rb, none⟩, ⟨some a, some ra, none⟩]
          [(a, ta), (b, tb)] =
        ([], [MsgOutcome.settled b tb (Except.ok (some rb)),
              MsgOutcome.settled a ta (Except.ok (some ra))])) := by
  refine ⟨?_, ?_, ?_⟩
  · intro pending msg i t hnd hid hine hlk
    have hbe : (i == "") = false := by simpa using hine
    simp [handleParsedMessage, hid, hbe, hlk, erase_eq_filter pending i hnd]
  · intro pending msg h
    rcases h with hid | ⟨i, hid, hcase⟩
    · simp [handleParsedMessage, hid]
    · rcases hcase with hie | hlk
      · subst hie
        simp [handleParsedMessage, hid]
      · by_cases hie : (i == "") = true
        · simp [handleParsedMessage, hid, hie]
        · simp [handleParsedMessage, hid, hie, hlk]
  · intro a b ta tb ra rb hna hnb hab
    have hba : ¬ b = a := fun h => hab h.symm
    have h1 : (b == a) = false := by simpa using hba
    have h2 : (a == b) = false := by simpa using hab
    have hb0 : (b == "") = false := by simpa using hnb
    have ha0 : (a == "") = false := by simpa using hna
    simp [handleAll, handleParsedMessage, List.lookup, List.eraseP,
      h1, h2, hb0, ha0, errTruthy]

theorem c6_witness :
    handleParsedMessage ⟨some "r2", some (Json.num 7), none⟩
        [("r1", 11), ("r2", 22)] =
      ([("r1", 11)],
       MsgOutcome.settled "r2" 22 (Except.ok (some (Json.num 7)))) := by
  have h := c6_correlation.1 [("r1", 11), ("r2", 22)]
    ⟨some "r2", some (Json.num 7), none⟩ "r2" 22
    (by decide) rfl (by decide) (by rfl)
  rw [h]
  rfl

/-! ## Process-exit lemmas and claim C7 -/

theorem exitRejectLoop_events (msg : String) (entries : List (String × Nat)) :
    ∀ pending, (exitRejectLoop msg entries pending).2 =
      entries.map (fun p => TransportEvent.rejectedPending p.1 p.2 msg) := by
  induction entries with
  | nil => intro pending; rfl
  | cons p rest ih =>
    intro pending
    simp [exitRejectLoop, ih]

theorem exitRejectLoop_clears (msg : String) (l : List (String × Nat))
    (hnd : (l.map Prod.fst).Nodup) :
    (exitRejectLoop msg l l).1 = [] := by
  induction l with
  | nil => rfl
  | cons p rest ih =>
    simp only [List.map_cons, List.nodup_cons] at hnd
    obtain ⟨hk, hrest⟩ := hnd
    have he : (p :: rest).eraseP (fun q => q.1 == p.1) = rest := by
      simp [List.eraseP_cons]
    show (exitRejectLoop msg rest ((p :: rest).eraseP (fun q => q.1 == p.1))).1 = []
    rw [he]
    exact ih hrest

/-- Claim C7: when the subprocess exits with a given code, every pending
request is rejected with the exit-coded error message (its timer cancelled)
and removed — the pending map is left empty — and exactly one exit event is
emitted, however many requests were pending. -/
theorem c7_exit (code : Option Int) (pending : List (String × Nat))
    (hnd : (pending.map Prod.fst).Nodup) :
    handleExit code pending =
      ([], pending.map (fun p =>
          TransportEvent.rejectedPending p.1 p.2 (exitMessage code)) ++
        [TransportEvent.exitEmitted code]) ∧
    ((handleExit code pending).2.filter isExitEvent).length = 1 ∧
    ((handleExit code pending).2.filter (fun e => !isExitEvent e)).length =
      pending.length ∧
    exitMessage code = "MCP server process exited with code " ++ codeText code := by
  have hmain : handleExit code pending =
      ([], pending.map (fun p =>
          TransportEvent.rejectedPending p.1 p.2 (exitMessage code)) ++
        [TransportEvent.exitEmitted code]) := by
    show ((exitRejectLoop (exitMessage code) pending pending).1,
        (exitRejectLoop (exitMessage code) pending pending).2 ++
          [TransportEvent.exitEmitted code]) = _
    rw [exitRejectLoop_events (exitMessage code) pending pending,
      exitRejectLoop_clears (exitMessage code) pending hnd]
  refine ⟨hmain, ?_, ?_, rfl⟩
  · rw [hmain]
    simp [List.filter_append, List.filter_map, Function.comp, isExitEvent]
  · rw [hmain]
    simp [List.filter_append, List.filter_map, Function.comp, isExitEvent]

theorem c7_witness :
    handleExit (some 3) [("a", 1), ("b", 2)] =
      ([], [TransportEvent.rejectedPending "a" 1
              "MCP server process exited with code 3",
            TransportEvent.rejectedPending "b" 2
              "MCP server process exited with code 3",
            TransportEvent.exitEmitted (some 3)]) := by
  have h := (c7_exit (some 3) [("a", 1), ("b", 2)] (by decide)).1
  rw [h]
  rfl

/-- Claim C8: calling a tool fails with the "not found" error when the
server name is unknown, with the "is not connected" error when the server's
status is not connected, and with the tool-"not found" error when the tool
is absent from the discovered tool list, and otherwise delegates to the
transport; accessing a resource applies the same unknown-server and
not-connected checks but delegates any uri without validating it against
the discovered resource list; and neither operation ever modifies the hub
state (statuses and capability lists included). -/
theorem c8_dispatch (hub : McpHubState) (sn tn uri : String) (args : Json) :
    (executeTool hub sn tn args).1 = hub ∧
    (accessResource hub sn uri).1 = hub ∧
    (hub.servers.lookup sn = none →
      (executeTool hub sn tn args).2 =
        Except.error ("MCP server " ++ sn ++ " not found") ∧
      (accessResource hub sn uri).2 =
        Except.error ("MCP server " ++ sn ++ " not found")) ∧
    (∀ entry, hub.servers.lookup sn = some entry →
      entry.status ≠ McpStatus.connected →
      (executeTool hub sn tn args).2 =
        Except.error ("MCP server " ++ sn ++ " is not connected") ∧
      (accessResource hub sn uri).2 =
        Except.error ("MCP server " ++ sn ++ " is not connected")) ∧
    (∀ entry, hub.servers.lookup sn = some entry →
      entry.status = McpStatus.connected → entry.hasProtocol = true →
      (entry.tools.find? (fun t => t.name == tn) = none →
        (executeTool hub sn tn args).2 =
          Except.error ("Tool " ++ tn ++ " not found in MCP server " ++ sn)) ∧
      ((entry.tools.find? (fun t => t.name == tn)).isSome →
        (executeTool hub sn tn args).2 = Except.ok (tn, args)) ∧
      (accessResource hub sn uri).2 = Except.ok uri) := by
  refine ⟨?_, ?_, ?_, ?_, ?_⟩
  · cases hlk : hub.servers.lookup sn with
    | none => simp [executeTool, hlk]
    | some entry =>
      by_cases hc : entry.status ≠ McpStatus.connected ∨ entry.hasProtocol = false
      · simp [executeTool, hlk, hc]
      · cases hf : entry.tools.find? (fun t => t.name == tn) with
        | none => simp [executeTool, hlk, hc, hf]
        | some t => simp [executeTool, hlk, hc, hf]
  · cases hlk : hub.servers.lookup sn with
    | none => simp [accessResource, hlk]
    | some entry =>
      by_cases hc : entry.status ≠ McpStatus.connected ∨ entry.hasProtocol = false
      · simp [accessResource, hlk, hc]
      · simp [accessResource, hlk, hc]
  · intro hlk
    constructor
    · simp [executeTool, hlk]
    · simp [accessResource, hlk]
  · intro entry hlk hst
    constructor
    · simp [executeTool, hlk, hst]
    · simp [accessResource, hlk, hst]
  · intro entry hlk hst hpr
    have hcond : ¬ (entry.status ≠ McpStatus.connected ∨ entry.hasProtocol = false) := by
      simp [hst, hpr]
    refine ⟨?_, ?_, ?_⟩
    · intro hf
      simp [executeTool, hlk, hcond, hf]
    · intro hf
      obtain ⟨t, ht⟩ := Option.isSome_iff_exists.mp hf
      simp [executeTool, hlk, hcond, ht]
    · simp [accessResource, hlk, hcond]

theorem c8_witness :
    (executeTool ⟨[("down", ⟨false, false, [], [], [], .disconnected, none⟩),
        ("up", ⟨true, true, [⟨"t1", none⟩], [], [], .connected, none⟩)]⟩
      "down" "t1" Json.null).2 =
      Except.error "MCP server down is not connected" ∧
    (executeTool ⟨[("down", ⟨false, false, [], [], [], .disconnected, none⟩),
        ("up", ⟨true, true, [⟨"t1", none⟩], [], [], .connected, none⟩)]⟩
      "up" "zz" Json.null).2 =
      Except.error "Tool zz not found in MCP server up" ∧
    (executeTool ⟨[("down", ⟨false, false, [], [], [], .disconnected, none⟩),
        ("up", ⟨true, true, [⟨"t1", none⟩], [], [], .connected, none⟩)]⟩
      "up" "t1" Json.null).2 = Except.ok ("t1", Json.null) ∧
    (accessResource ⟨[("down", ⟨false, false, [], [], [], .disconnected, none⟩),
        ("up", ⟨true, true, [⟨"t1", none⟩], [], [], .connected, none⟩)]⟩
      "up" "file:///nowhere").2 = Except.ok "file:///nowhere" ∧
    (executeTool ⟨[("down", ⟨false, false, [], [], [], .disconnected, none⟩),
        ("up", ⟨true, true, [⟨"t1", none⟩], [], [], .connected, none⟩)]⟩
      "down" "t1" Json.null).1 =
      ⟨[("down", ⟨false, false, [], [], [], .disconnected, none⟩),
        ("up", ⟨true, true, [⟨"t1", none⟩], [], [], .connected, none⟩)]⟩ := by
  refine ⟨?_, ?_, ?_, ?_, ?_⟩
  · exact ((c8_dispatch _ "down" "t1" "" Json.null).2.2.2.1 _ (by rfl)
      (by decide)).1
  · exact ((c8_dispatch _ "up" "zz" "" Json.null).2.2.2.2 _ (by rfl)
      (by decide) (by decide)).1 (by rfl)
  · exact ((c8_dispatch _ "up" "t1" "" Json.null).2.2.2.2 _ (by rfl)
      (by decide) (by decide)).2.1 (by decide)
  · exact ((c8_dispatch _ "up" "zz" "file:///nowhere" Json.null).2.2.2.2 _
      (by rfl) (by decide) (by decide)).2.2
  · exact (c8_dispatch _ "down" "t1" "" Json.null).1

/-- Claim C9: when any of the three discovery calls of a starting server
fails, the connection ends disconnected with that discovery error recorded
in its error field, a server-error event is emitted for that server, and
closeServerProcess is invoked on the spawned subprocess rather than leaving
it running. -/
theorem c9_discovery (name : String) (entry : ServerEntry)
    (toolsR : Except String (Option (List McpToolDesc)))
    (resourcesR : Except String (Option (List McpResource)))
    (templatesR : Except String (Option (List McpResourceTemplate)))
    (e : String)
    (h : firstDiscoveryError toolsR resourcesR templatesR = some e) :
    (fetchCapabilities name entry toolsR resourcesR templatesR).1.status =
      McpStatus.disconnected ∧
    (fetchCapabilities name entry toolsR resourcesR templatesR).1.error = some e ∧
    (fetchCapabilities name entry toolsR resourcesR templatesR).2.1 =
      [HubEvent.serverError name e] ∧
    (fetchCapabilities name entry toolsR resourcesR templatesR).2.2 = true := by
  cases toolsR with
  | error e1 =>
    simp [firstDiscoveryError] at h
    subst h
    simp [fetchCapabilities]
  | ok ts =>
    cases resourcesR with
    | error e1 =>
      simp [firstDiscoveryError] at h
      subst h
      simp [fetchCapabilities]
    | ok rs =>
      cases templatesR with
      | error e1 =>
        simp [firstDiscoveryError] at h
        subst h
        simp [fetchCapabilities]
      | ok tmpl => simp [firstDiscoveryError] at h

theorem c9_witness :
    (fetchCapabilities "srv"
        ⟨true, true, [], [], [], McpStatus.connecting, none⟩
        (Except.ok (some [⟨"t1", none⟩])) (Except.error "boom")
        (Except.ok none)).1.status = McpStatus.disconnected ∧
    (fetchCapabilities "srv"
        ⟨true, true, [], [], [], McpStatus.connecting, none⟩
        (Except.ok (some [⟨"t1", none⟩])) (Except.error "boom")
        (Except.ok none)).1.error = some "boom" ∧
    (fetchCapabilities "srv"
        ⟨true, true, [], [], [], McpStatus.connecting, none⟩
        (Except.ok (some [⟨"t1", none⟩])) (Except.error "boom")
        (Except.ok none)).2.1 = [HubEvent.serverError "srv" "boom"] ∧
    (fetchCapabilities "srv"
        ⟨true, true, [], [], [], McpStatus.connecting, none⟩
        (Except.ok (some [⟨"t1", none⟩])) (Except.error "boom")
        (Except.ok none)).2.2 = true :=
  c9_discovery "srv" ⟨true, true, [], [], [], McpStatus.connecting, none⟩
    (Except.ok (some [⟨"t1", none⟩])) (Except.error "boom") (Except.ok none)
    "boom" rfl
